import Mathlib

/-!
Verification development for the production-issue-investigator pipeline.

The repository specifies the investigation pipeline through its design
documents (`docs/designs/production-issue-investigator-design.md`,
`docs/understand_stacktrace.md`, `CLAUDE.md`); the definitions below are a
shallow embedding of the behaviour those documents fix.  Times are modelled
in whole hours; external collaborators (search backend, VCS client) appear
as explicit function parameters.
-/

namespace PII

/-! ## TimeWindowResolver -/

/-- Search time window; `lo` embeds the design's `from` bound (a Lean
keyword) and `hi` its `to` bound, both in hours. -/
structure TimeWindow where
  lo : Int
  hi : Int
deriving DecidableEq, Repr

/-- Time Window Calculation from the design document.  With no timestamp the
attempts are [now-4h, now], [now-24h, now], [now-7d, now].  With a user
timestamp `t` the first attempt is [t-2h, t+2h] and only the two expansion
attempts clamp the upper bound: [t-12h, min (t+12h) now] and
[t-3.5d, min (t+3.5d) now]. -/
def timeWindowAttempts (timestamp : Option Int) (now : Int) : List TimeWindow :=
  match timestamp with
  | none => [⟨now - 4, now⟩, ⟨now - 24, now⟩, ⟨now - 24 * 7, now⟩]
  | some t => [⟨t - 2, t + 2⟩, ⟨t - 12, min (t + 12) now⟩, ⟨t - 84, min (t + 84) now⟩]

/-! ## InvestigationScheduler input handling -/

/-- User input to the scheduler: optional log message, identifier list and
optional timestamp. -/
structure UserInput where
  logMessage : Option String
  identifiers : List String
  timestamp : Option Int

/-- Outcome of input-mode validation. -/
inductive InputOutcome
  | rejected (message : String)
  | investigate
deriving DecidableEq

/-- What the scheduler decides to do for a run: the validation outcome and
the time windows it will query (empty means no search backend call). -/
structure ScheduleStart where
  outcome : InputOutcome
  searchWindows : List TimeWindow
deriving DecidableEq

/-- Clarification sent back for datetime-only input (design document,
Mode 3: DateTime Only (Rejected)). -/
def clarificationMessage : String :=
  "Cannot perform search with only datetime. Please provide either a log message or free text with identifiers."

/-- Input-mode handling of the scheduler: an input with neither a log
message nor identifiers is rejected with a clarification and no search is
planned; otherwise the resolved window ladder is queried. -/
def scheduleRun (input : UserInput) (now : Int) : ScheduleStart :=
  if input.logMessage.isNone && input.identifiers.isEmpty then
    { outcome := .rejected clarificationMessage, searchWindows := [] }
  else
    { outcome := .investigate, searchWindows := timeWindowAttempts input.timestamp now }

/-! ## String helpers (kernel-computable char-list versions) -/

/-- Whether `pat` is a prefix of `l`. -/
def listStartsWith (l pat : List Char) : Bool :=
  match l, pat with
  | _, [] => true
  | [], _ :: _ => false
  | c :: cs, p :: ps => c == p && listStartsWith cs ps

/-- Whether `pat` is a suffix of `l`. -/
def listEndsWith (l pat : List Char) : Bool :=
  listStartsWith l.reverse pat.reverse

/-- Whether `pat` occurs as a contiguous subsequence of `l`. -/
def containsSeq (l pat : List Char) : Bool :=
  match l with
  | [] => pat.isEmpty
  | _ :: rest => listStartsWith l pat || containsSeq rest pat

/-- Fuel-indexed worker replacing each occurrence of `pat` by `rep`. -/
def replaceSeqAux (pat rep : List Char) : Nat → List Char → List Char
  | 0, l => l
  | _ + 1, [] => []
  | fuel + 1, c :: rest =>
    if !pat.isEmpty && listStartsWith (c :: rest) pat then
      rep ++ replaceSeqAux pat rep fuel ((c :: rest).drop pat.length)
    else c :: replaceSeqAux pat rep fuel rest

/-- Replace every occurrence of `pat` in `l` by `rep` (left to right). -/
def replaceSeq (pat rep l : List Char) : List Char :=
  replaceSeqAux pat rep l.length l

/-- Substring test on strings. -/
def containsSub (s pat : String) : Bool :=
  containsSeq s.data pat.data

/-- Substring replacement on strings, mirroring Python str.replace. -/
def replaceStr (s pat rep : String) : String :=
  String.mk (replaceSeq pat.data rep.data s.data)

/-! ## RateLimitedSearchClient -/

/-- Response of the search backend to one request attempt: either a page of
log-entry ids or a 429 carrying the X-RateLimit-Reset timestamp. -/
inductive SearchResponse
  | entries (ids : List Nat)
  | rateLimited (reset : Nat)
deriving DecidableEq

/-- Terminal outcome of one search call. -/
inductive SearchOutcome
  | success (ids : List Nat)
  | rateLimitedFail
deriving DecidableEq

/-- Observable record of one search call: the requests issued in order, the
waits performed (in seconds) and the outcome. -/
structure SearchCallLog (ρ : Type) where
  requests : List ρ
  waits : List Int
  outcome : SearchOutcome

/-- Rate-limit handling from the design document: on a 429 compute
wait = reset - now, wait, retry the same request once; a second 429 is
terminal for the call.  `respond req i` is the backend's answer to the
i-th attempt of request `req`. -/
def searchWithRateLimit {ρ : Type} (respond : ρ → Nat → SearchResponse)
    (req : ρ) (now : Nat) : SearchCallLog ρ :=
  match respond req 0 with
  | .entries ids => ⟨[req], [], .success ids⟩
  | .rateLimited reset =>
    match respond req 1 with
    | .entries ids => ⟨[req, req], [(reset : Int) - (now : Int)], .success ids⟩
    | .rateLimited _ => ⟨[req, req], [(reset : Int) - (now : Int)], .rateLimitedFail⟩

/-- The caller's continuation: a rate-limited call contributes nothing but
the investigation proceeds with the results gathered so far. -/
def callerResume (outcome : SearchOutcome) (priorResults : List Nat) : List Nat :=
  match outcome with
  | .success ids => priorResults ++ ids
  | .rateLimitedFail => priorResults

/-! ## DeploymentCorrelator -/

/-- A commit of the deployment (kubernetes) repository. -/
structure KubeCommit where
  title : String
  ts : Int
deriving DecidableEq

/-- Deployment discovered for a service. -/
structure DeploymentInfo where
  service : String
  commitHash : String
  versionTag : String
deriving DecidableEq

/-- Result of the deployment stage: an optional deployment plus an optional
recorded reason; no error is raised when nothing matches. -/
structure DeploymentCheck where
  deployment : Option DeploymentInfo
  reason : Option String
deriving DecidableEq

/-- Membership of a commit in the 72-hour search window ending at the
reference time. -/
def inDeployWindow (reference : Int) (c : KubeCommit) : Bool :=
  reference - 72 ≤ c.ts && c.ts ≤ reference

/-- Exact-string correlation: the commit title must be the service name, a
dash, then a string equal to the log's version tag. -/
def titleMatches (service versionTag : String) (c : KubeCommit) : Bool :=
  c.title == service ++ "-" ++ versionTag

/-- Application commit hash: the part of the version tag before the triple
underscore. -/
def appCommitHash (versionTag : String) : String :=
  String.mk (versionTag.data.takeWhile (fun c => c != '_'))

/-- Recorded reason when no commit matches within the window. -/
def noDeploymentReason : String := "no deployment in window"

/-- Deployment correlation: the first commit inside the 72h window whose
title matches exactly yields the deployment; otherwise deployment is null
with a recorded reason. -/
def correlateDeployment (service versionTag : String) (reference : Int)
    (commits : List KubeCommit) : DeploymentCheck :=
  match commits.find? (fun c => inDeployWindow reference c && titleMatches service versionTag c) with
  | some _ => { deployment := some ⟨service, appCommitHash versionTag, versionTag⟩, reason := none }
  | none => { deployment := none, reason := some noDeploymentReason }

/-! ## RepositoryResolver -/

/-- Resolver outcome: the repository found, if any, plus every lookup that
was attempted, in order. -/
structure RepoResolve where
  repo : Option String
  lookups : List String
deriving DecidableEq

/-- Repository resolution from the design document: try
sunbit-dev/{serviceName}; on a miss, if the service name contains "jobs",
strip "-jobs" and retry once; otherwise (or if the retry also misses) fail.
`found` models the VCS backend's repository-exists check. -/
def resolveRepository (found : String → Bool) (serviceName : String) : RepoResolve :=
  let primary := "sunbit-dev/" ++ serviceName
  if found primary then ⟨some primary, [primary]⟩
  else if containsSub serviceName "jobs" then
    let fallback := "sunbit-dev/" ++ replaceStr serviceName "-jobs" ""
    if found fallback then ⟨some fallback, [primary, fallback]⟩
    else ⟨none, [primary, fallback]⟩
  else ⟨none, [primary]⟩

/-- Per-service consequence of resolution: code analysis runs only on a
resolved repository; an unresolved one is skipped but still reported. -/
structure ServiceCodeStage where
  codeAnalysisRan : Bool
  reportedFailures : List String
deriving DecidableEq

/-- Downstream handling: when the resolver fails the code stage is skipped
for that service and the failure is noted for the final report. -/
def runCodeStage (found : String → Bool) (serviceName : String) : ServiceCodeStage :=
  match (resolveRepository found serviceName).repo with
  | some _ => ⟨true, []⟩
  | none => ⟨false, ["Code analysis unavailable - repository not found: sunbit-dev/" ++ serviceName]⟩

/-! ## SessionFanoutRetriever -/

/-- Per-session statistics derived from the initial search result. -/
structure SessionStat where
  sessionId : String
  hasError : Bool
  lastTs : Nat
  entryCount : Nat
deriving DecidableEq, Repr

/-- Session ranking from the design document, as a total preorder read
"ranks at least as high as": presence of an ERROR-level entry first, then
most recent timestamp, then entry count in the initial result, each
descending. -/
def rankGE (a b : SessionStat) : Bool :=
  if a.hasError != b.hasError then a.hasError
  else if a.lastTs != b.lastTs then decide (b.lastTs < a.lastTs)
  else decide (b.entryCount ≤ a.entryCount)

/-- Sessions retained for fan-out: the cap highest-ranked sessions. -/
def selectSessions (cap : Nat) (sessions : List SessionStat) : List SessionStat :=
  (sessions.mergeSort rankGE).take cap

/-- Sessions dropped by the cap. -/
def droppedSessions (cap : Nat) (sessions : List SessionStat) : List SessionStat :=
  (sessions.mergeSort rankGE).drop cap

/-! ## ExceptionCorrelator confidence -/

/-- Root-cause confidence levels. -/
inductive Confidence
  | high
  | medium
  | low
deriving DecidableEq, Repr

/-- Correlation state of one frame against the changed-line ranges. -/
structure LineCorrelation where
  isDirectMatch : Bool
  isNearbyMatch : Bool
deriving DecidableEq, Repr

/-- One step of the call flow built from frame order; the correlation is
attached only for owned frames with a known file and line. -/
structure CallFlowStep where
  index : Nat
  isOwned : Bool
  correlation : Option LineCorrelation
deriving DecidableEq, Repr

/-- Whether a step carries a direct line-number match. -/
def stepDirect (s : CallFlowStep) : Bool :=
  (s.correlation.map (fun c => c.isDirectMatch)).getD false

/-- Whether a step carries a direct or nearby match. -/
def stepDirectOrNearby (s : CallFlowStep) : Bool :=
  (s.correlation.map (fun c => c.isDirectMatch || c.isNearbyMatch)).getD false

/-- Modelled from the spec: the confidence policy of the exception
correlator.  The implementation file (agents/exception_analyzer.py) is
absent from the sources — only its dataclass declaration and a report-side
note survive — so the policy is the spec's: HIGH when the root frame
(index 0) has a direct match; MEDIUM when any owned frame has a direct or
nearby match; LOW otherwise. -/
def rootCauseConfidence (flow : List CallFlowStep) : Confidence :=
  if flow.any (fun s => s.index == 0 && stepDirect s) then .high
  else if flow.any (fun s => s.isOwned && stepDirectOrNearby s) then .medium
  else .low

/-! ## CodeChangeAnalyzer file fetching -/

/-- Sibling path for the extension fallback: a .kt path maps to the .java
equivalent (with the src/main/java/ directory) and conversely. -/
def siblingPath (p : String) : Option String :=
  if listEndsWith p.data ".kt".data then
    some (String.mk (replaceSeq "src/main/kotlin/".data "src/main/java/".data
      (p.data.take (p.data.length - 3) ++ ".java".data)))
  else if listEndsWith p.data ".java".data then
    some (String.mk (replaceSeq "src/main/java/".data "src/main/kotlin/".data
      (p.data.take (p.data.length - 5) ++ ".kt".data)))
  else none

/-- Outcome of fetching one file with the extension fallback. -/
structure FileFetch where
  content : Option String
  usedPath : Option String
  attempts : List String
deriving DecidableEq

/-- File fetching of the code checker: try the given path; if it is not
found, try the sibling-extension path once; only then declare the file not
found.  `getFile` models the VCS content lookup at the fixed ref. -/
def fetchWithExtensionFallback (getFile : String → Option String) (p : String) : FileFetch :=
  match getFile p with
  | some c => ⟨some c, some p, [p]⟩
  | none =>
    match siblingPath p with
    | some q =>
      match getFile q with
      | some c => ⟨some c, some q, [p, q]⟩
      | none => ⟨none, none, [p, q]⟩
    | none => ⟨none, none, [p]⟩

/-! ## InvestigationScheduler stage ordering -/

/-- Pipeline stage events of one service's investigation. -/
inductive StageEvent
  | deployStart
  | deployEnd
  | codeStart
  | codeEnd
deriving DecidableEq, Repr

/-- Per-service order fixed by the scheduler: the deployment stage runs to
completion (or definitive failure) before the code stage starts. -/
def pipelineOrder : List StageEvent :=
  [.deployStart, .deployEnd, .codeStart, .codeEnd]

/-- Projection of a global schedule onto one service's events. -/
def serviceTrace (s : String) (tr : List (String × StageEvent)) : List StageEvent :=
  tr.filterMap (fun p => if p.1 = s then some p.2 else none)

/-- A schedule the scheduler can produce: any interleaving whose
per-service projection follows the sequential pipeline; across services no
further constraint is imposed. -/
def validSchedule (services : List String) (tr : List (String × StageEvent)) : Prop :=
  ∀ s ∈ services, serviceTrace s tr = pipelineOrder

/-- One service's complete pipeline as a contiguous event block. -/
def pipelineBlock (s : String) : List (String × StageEvent) :=
  pipelineOrder.map (fun e => (s, e))

/-- Aggregation keyed by service name: the results recorded for a service,
independent of the completion order of the other services. -/
def aggregateFor (results : List (String × Nat)) (s : String) : List Nat :=
  (results.filter (fun p => p.1 == s)).map Prod.snd

/-! ## StackTraceParser -/

/-- Characters of the regex class [\w.$] used for exception type tokens. -/
def isTypeChar (c : Char) : Bool :=
  c.isAlphanum || c == '_' || c == '.' || c == '$'

/-- Characters of the regex class [\w$<>] used for method tokens. -/
def isMethodChar (c : Char) : Bool :=
  c.isAlphanum || c == '_' || c == '$' || c == '<' || c == '>'

/-- The suffix alternatives of the exception-header regex. -/
def exceptionSuffixes : List String := ["Exception", "Error", "Throwable"]

/-- Whether the type token decomposes as a nonempty [\w.$]+ stem followed
by Exception, Error or Throwable, as the header regex group demands. -/
def endsWithRequiredSuffix (ty : String) : Bool :=
  exceptionSuffixes.any (fun suf =>
    listEndsWith ty.data suf.data && suf.data.length < ty.data.length)

/-- Match of the exception-header regex against one line: an anchored type
token from [\w.$]+ ending in one of the required suffixes, optionally
followed by a colon, optional whitespace and a nonempty message. -/
def headerMatch (line : List Char) : Option (String × Option String) :=
  let tyCs := line.takeWhile isTypeChar
  let rest := line.dropWhile isTypeChar
  if tyCs.isEmpty || !endsWithRequiredSuffix (String.mk tyCs) then none
  else
    match rest with
    | [] => some (String.mk tyCs, none)
    | ':' :: r =>
      if r.isEmpty then none
      else
        let t := r.dropWhile (fun c => c.isWhitespace)
        let msg := if t.isEmpty then r.drop (r.length - 1) else t
        some (String.mk tyCs, some (String.mk msg))
    | _ :: _ => none

/-- Numeric value of a digit run. -/
def digitsToNat (ds : List Char) : Nat :=
  ds.foldl (fun n c => n * 10 + (c.toNat - 48)) 0

/-- Data captured from one frame line. -/
structure FrameData where
  className : String
  methodName : String
  fileName : Option String
  lineNumber : Option Nat
deriving DecidableEq, Repr

/-- Match of the frame regex against one line: optional leading
whitespace, the word at, whitespace, a dotted class token, a method token,
then parentheses holding an optional file name and optional colon-line. -/
def frameMatch (line : List Char) : Option FrameData :=
  match line.dropWhile (fun c => c.isWhitespace) with
  | 'a' :: 't' :: c :: rest =>
    if c.isWhitespace then
      let afterAt := rest.dropWhile (fun c2 => c2.isWhitespace)
      let pre := afterAt.takeWhile (fun c2 => isTypeChar c2 || c2 == '<' || c2 == '>')
      match afterAt.dropWhile (fun c2 => isTypeChar c2 || c2 == '<' || c2 == '>') with
      | '(' :: inner =>
        let revMeth := pre.reverse.takeWhile (fun c2 => c2 != '.')
        match pre.reverse.dropWhile (fun c2 => c2 != '.') with
        | '.' :: revClass =>
          let cls := revClass.reverse
          let meth := revMeth.reverse
          if cls.isEmpty || meth.isEmpty || !cls.all isTypeChar || !meth.all isMethodChar then
            none
          else
            let fileCs := inner.takeWhile (fun c2 => c2 != ':' && c2 != ')')
            let fileOpt := if fileCs.isEmpty then none else some (String.mk fileCs)
            match inner.dropWhile (fun c2 => c2 != ':' && c2 != ')') with
            | ')' :: _ => some ⟨String.mk cls, String.mk meth, fileOpt, none⟩
            | ':' :: afterColon =>
              let ds := afterColon.takeWhile (fun c2 => c2.isDigit)
              match afterColon.dropWhile (fun c2 => c2.isDigit) with
              | ')' :: _ =>
                if ds.isEmpty then none
                else some ⟨String.mk cls, String.mk meth, fileOpt, some (digitsToNat ds)⟩
              | _ => none
            | _ => none
        | _ => none
      | _ => none
    else none
  | _ => none

/-- Split a character stream into lines at newline characters. -/
def linesOf (cs : List Char) : List (List Char) :=
  match cs with
  | [] => [[]]
  | c :: rest =>
    if c = '\n' then [] :: linesOf rest
    else
      match linesOf rest with
      | [] => [[c]]
      | l :: ls => (c :: l) :: ls

/-- One parsed stack frame; index 0 is the innermost (root) frame. -/
structure StackFrame where
  index : Nat
  className : String
  methodName : String
  fileName : Option String
  lineNumber : Option Nat
  isRootFrame : Bool
deriving DecidableEq, Repr

/-- Structured result of parsing raw stack-trace text. -/
structure ParsedStackTrace where
  exceptionType : Option String
  exceptionMessage : Option String
  frames : List StackFrame
  hasChainedCause : Bool
deriving DecidableEq, Repr

/-- The parser: the exception header is the first line the header regex
accepts, frame lines become ordered frames with the first marked as root,
and a Caused by: occurrence sets the chained-cause flag; an absent header
leaves the exception type null without failing. -/
def parse (raw : String) : ParsedStackTrace :=
  let lines := linesOf raw.data
  let header := lines.findSome? headerMatch
  let rawFrames := lines.filterMap frameMatch
  { exceptionType := header.map Prod.fst
    exceptionMessage := header.bind (fun h => h.2)
    frames := rawFrames.enum.map (fun p =>
      { index := p.1, className := p.2.className, methodName := p.2.methodName,
        fileName := p.2.fileName, lineNumber := p.2.lineNumber, isRootFrame := p.1 == 0 })
    hasChainedCause := containsSeq raw.data "Caused by:".data }

end PII

/-! ## Claim theorems -/

/-- C1: the claim that every attempt's `to` bound stays at or below the
wall clock at resolution start fails on the first with-timestamp attempt:
at wall clock 100h with user timestamp 99h the design computes the first
window as [97h, 101h], whose upper bound 101h lies one hour in the future.
This contradicts the repository's own documentation (CLAUDE.md: when the
user provides a datetime, never search beyond current time). -/
theorem c1_first_attempt_exceeds_wall_clock :
    (PII.timeWindowAttempts (some 99) 100).head? = some ⟨97, 101⟩ ∧
      ∃ w ∈ PII.timeWindowAttempts (some 99) 100, 100 < w.hi := by
  refine ⟨rfl, ⟨97, 101⟩, ?_, ?_⟩ <;> decide

/-- C10: if the user input carries only a timestamp — no log message and no
identifiers — the scheduler rejects it with the clarification message and
plans no search at all (no search backend call for that run). -/
theorem c10_datetime_only_rejected (input : PII.UserInput) (ts now : Int)
    (hmsg : input.logMessage = none) (hids : input.identifiers = [])
    (_hts : input.timestamp = some ts) :
    PII.scheduleRun input now =
      { outcome := .rejected PII.clarificationMessage, searchWindows := [] } := by
  simp [PII.scheduleRun, hmsg, hids]

/-- C10 witness: a concrete datetime-only input is rejected with no search. -/
theorem c10_witness :
    PII.scheduleRun ⟨none, [], some 5⟩ 100 =
      { outcome := .rejected PII.clarificationMessage, searchWindows := [] } :=
  c10_datetime_only_rejected ⟨none, [], some 5⟩ 5 100 rfl rfl rfl

/-- C3: a search call whose first response is rate-limited waits exactly
reset - now, reissues the identical request exactly once (two requests in
total, so no third attempt), terminates with the RateLimited failure when
the retry is rate-limited again, succeeds when the retry succeeds, and on
the terminal failure the caller resumes with exactly its prior partial
results. -/
theorem c3_rate_limit_retry_once {ρ : Type} (respond : ρ → Nat → PII.SearchResponse)
    (req : ρ) (now reset : Nat) (h0 : respond req 0 = .rateLimited reset) :
    (PII.searchWithRateLimit respond req now).waits = [(reset : Int) - (now : Int)] ∧
    (PII.searchWithRateLimit respond req now).requests = [req, req] ∧
    (∀ reset2, respond req 1 = .rateLimited reset2 →
      (PII.searchWithRateLimit respond req now).outcome = .rateLimitedFail) ∧
    (∀ ids, respond req 1 = .entries ids →
      (PII.searchWithRateLimit respond req now).outcome = .success ids) ∧
    (∀ prior, (PII.searchWithRateLimit respond req now).outcome = .rateLimitedFail →
      PII.callerResume (PII.searchWithRateLimit respond req now).outcome prior = prior) := by
  unfold PII.searchWithRateLimit
  rw [h0]
  cases h1 : respond req 1 <;>
    simp [PII.callerResume, h1]

/-- C3 witness: with a backend that answers 429 (reset 50) to both
attempts at wall clock 30, the call waits 20, issues the request twice and
fails RateLimited. -/
theorem c3_witness :
    (PII.searchWithRateLimit (fun (_ : Nat) (_ : Nat) => PII.SearchResponse.rateLimited 50) 7 30).waits = [20] ∧
    (PII.searchWithRateLimit (fun (_ : Nat) (_ : Nat) => PII.SearchResponse.rateLimited 50) 7 30).requests = [7, 7] ∧
    (PII.searchWithRateLimit (fun (_ : Nat) (_ : Nat) => PII.SearchResponse.rateLimited 50) 7 30).outcome = .rateLimitedFail := by
  have h := c3_rate_limit_retry_once (fun (_ : Nat) (_ : Nat) => PII.SearchResponse.rateLimited 50) 7 30 50 rfl
  refine ⟨?_, h.2.1, h.2.2.1 50 rfl⟩
  rw [h.1]
  norm_num

/-- C5: the deployment stage reports a match precisely when some commit in
the 72-hour window has a title string-equal to service-versionTag (exact
correlation, no fuzzy matching); with no such commit it returns a null
deployment together with the recorded reason, as an ordinary result rather
than an error. -/
theorem c5_exact_deployment_correlation (service versionTag : String)
    (reference : Int) (commits : List PII.KubeCommit) :
    ((PII.correlateDeployment service versionTag reference commits).deployment.isSome ↔
      ∃ c ∈ commits, PII.inDeployWindow reference c = true ∧
        c.title = service ++ "-" ++ versionTag) ∧
    ((PII.correlateDeployment service versionTag reference commits).deployment = none →
      (PII.correlateDeployment service versionTag reference commits).reason =
        some PII.noDeploymentReason) := by
  constructor
  · cases hfind : commits.find?
        (fun c => PII.inDeployWindow reference c && PII.titleMatches service versionTag c) with
    | none =>
      unfold PII.correlateDeployment
      rw [hfind]
      rw [List.find?_eq_none] at hfind
      simp only [PII.titleMatches, Bool.and_eq_true, beq_iff_eq] at hfind
      simp only [Option.isSome_none, Bool.false_eq_true, false_iff]
      rintro ⟨c, hc, hw, ht⟩
      exact hfind c hc (by simp [hw, ht])
    | some c =>
      have hmem := List.mem_of_find?_eq_some hfind
      have hp := List.find?_some hfind
      simp only [PII.titleMatches, Bool.and_eq_true, beq_iff_eq] at hp
      unfold PII.correlateDeployment
      rw [hfind]
      simp only [Option.isSome_some, true_iff]
      exact ⟨c, hmem, hp.1, hp.2⟩
  · intro h
    unfold PII.correlateDeployment at h ⊢
    cases hf : commits.find?
        (fun c => PII.inDeployWindow reference c && PII.titleMatches service versionTag c) with
    | none => rfl
    | some c => rw [hf] at h; simp at h

/-- C5 witness: a concrete in-window commit with an exactly matching title
is reported, and with no matching commit the stage returns a null
deployment with the recorded reason. -/
theorem c5_witness :
    ((PII.correlateDeployment "purchase-service" "f0d1___27650" 100
        [⟨"purchase-service-f0d1___27650", 60⟩]).deployment.isSome ↔
      ∃ c ∈ [(⟨"purchase-service-f0d1___27650", 60⟩ : PII.KubeCommit)],
        PII.inDeployWindow 100 c = true ∧
          c.title = "purchase-service" ++ "-" ++ "f0d1___27650") ∧
    ((PII.correlateDeployment "purchase-service" "f0d1___27650" 100
        [⟨"purchase-service-f0d1___27650", 60⟩]).deployment = none →
      (PII.correlateDeployment "purchase-service" "f0d1___27650" 100
        [⟨"purchase-service-f0d1___27650", 60⟩]).reason = some PII.noDeploymentReason) :=
  c5_exact_deployment_correlation "purchase-service" "f0d1___27650" 100
    [⟨"purchase-service-f0d1___27650", 60⟩]

/-- C6 counterexample: the claim says the fallback lookup happens only when
the service name carries the "-jobs" marker, but the design's guard is
merely that the name contains "jobs": for the service name "jobsboard"
(primary lookup not found) the resolver does attempt a second, fallback
lookup even though "-jobs" does not occur in the name. -/
theorem c6_counterexample :
    (PII.resolveRepository (fun _ => false) "jobsboard").lookups.length = 2 ∧
    PII.containsSub "jobsboard" "-jobs" = false ∧
    PII.containsSub "jobsboard" "jobs" = true := by
  refine ⟨?_, by decide, by decide⟩
  rfl

/-- C6 amended: the fallback lookup is attempted iff the primary lookup of
org/{serviceName} misses and the name contains "jobs" (the design's literal
guard; stripping "-jobs" may leave the name unchanged); the resolver fails
iff the primary misses and either the guard fails or the fallback also
misses; and on failure the code stage is skipped for the service while the
failure is still reported. -/
theorem c6_fallback_guard (found : String → Bool) (serviceName : String) :
    ((PII.resolveRepository found serviceName).lookups.length = 2 ↔
      found ("sunbit-dev/" ++ serviceName) = false ∧
        PII.containsSub serviceName "jobs" = true) ∧
    ((PII.resolveRepository found serviceName).repo = none ↔
      found ("sunbit-dev/" ++ serviceName) = false ∧
        (PII.containsSub serviceName "jobs" = false ∨
          found ("sunbit-dev/" ++ PII.replaceStr serviceName "-jobs" "") = false)) ∧
    ((PII.resolveRepository found serviceName).repo = none →
      PII.runCodeStage found serviceName =
        ⟨false, ["Code analysis unavailable - repository not found: sunbit-dev/" ++ serviceName]⟩) ∧
    ((PII.resolveRepository found serviceName).repo.isSome →
      PII.runCodeStage found serviceName = ⟨true, []⟩) := by
  unfold PII.runCodeStage PII.resolveRepository
  cases h1 : found ("sunbit-dev/" ++ serviceName) <;>
    cases h2 : PII.containsSub serviceName "jobs" <;>
    cases h3 : found ("sunbit-dev/" ++ PII.replaceStr serviceName "-jobs" "") <;>
    simp [h1, h2, h3]

/-- C6 witness: for card-jobs-service with only sunbit-dev/card-service
present, the primary lookup misses, the guard holds, and the resolver
succeeds through the fallback so the code stage runs. -/
theorem c6_witness :
    ((PII.resolveRepository (fun s => s == "sunbit-dev/card-service") "card-jobs-service").lookups.length = 2 ↔
      (fun s => s == "sunbit-dev/card-service") ("sunbit-dev/" ++ "card-jobs-service") = false ∧
        PII.containsSub "card-jobs-service" "jobs" = true) ∧
    PII.runCodeStage (fun s => s == "sunbit-dev/card-service") "card-jobs-service" = ⟨true, []⟩ := by
  have h := c6_fallback_guard (fun s => s == "sunbit-dev/card-service") "card-jobs-service"
  refine ⟨h.1, h.2.2.2 ?_⟩
  decide

/-- Helper: the session ranking is total. -/
theorem rankGE_total (a b : PII.SessionStat) : (PII.rankGE a b || PII.rankGE b a) = true := by
  obtain ⟨ia, ea, ta, ca⟩ := a
  obtain ⟨ib, eb, tb, cb⟩ := b
  simp only [PII.rankGE]
  by_cases he : ea = eb
  · subst he
    by_cases ht : ta = tb
    · subst ht
      simp only [bne_self_eq_false, Bool.false_eq_true, if_false, Bool.or_eq_true,
        decide_eq_true_eq]
      omega
    · have hx : (ta != tb) = true := by simp [ht]
      have hy : (tb != ta) = true := by simp [Ne.symm ht]
      simp only [bne_self_eq_false, Bool.false_eq_true, if_false, hx, hy, if_true,
        Bool.or_eq_true, decide_eq_true_eq]
      omega
  · have hx : (ea != eb) = true := by simp [he]
    have hy : (eb != ea) = true := by simp [Ne.symm he]
    simp only [hx, hy, if_true]
    cases ea <;> cases eb <;> simp_all

/-- Helper: the session ranking is transitive. -/
theorem rankGE_trans (a b c : PII.SessionStat)
    (h1 : PII.rankGE a b = true) (h2 : PII.rankGE b c = true) : PII.rankGE a c = true := by
  obtain ⟨ia, ea, ta, ca⟩ := a
  obtain ⟨ib, eb, tb, cb⟩ := b
  obtain ⟨ic, ec, tc, cc⟩ := c
  simp only [PII.rankGE] at h1 h2 ⊢
  cases ea <;> cases eb <;> cases ec <;>
    simp only [bne_self_eq_false, Bool.false_eq_true, if_false, if_true, bne,
      Bool.not_eq_true] at h1 h2 ⊢ <;>
    first
    | rfl
    | exact h1.elim
    | exact h2.elim
    | (split_ifs at h1 h2 ⊢ <;> simp_all <;> omega)

/-- C4: when the unique session set exceeds the cap, the retriever fans out
at most cap sessions, every retained session ranks at least as high as
every dropped session under the lexicographic policy (error presence, then
recency, then entry count), and with 40 unique sessions and cap 20 exactly
20 sessions are fanned out. -/
theorem c4_fanout_cap_and_domination (cap : Nat) (sessions : List PII.SessionStat)
    (hover : cap < sessions.length) :
    (PII.selectSessions cap sessions).length ≤ cap ∧
    (∀ r ∈ PII.selectSessions cap sessions, ∀ d ∈ PII.droppedSessions cap sessions,
      PII.rankGE r d = true) ∧
    (sessions.length = 40 → cap = 20 → (PII.selectSessions cap sessions).length = 20) := by
  have hlen : (sessions.mergeSort PII.rankGE).length = sessions.length :=
    List.length_mergeSort sessions
  refine ⟨?_, ?_, ?_⟩
  · unfold PII.selectSessions
    rw [List.length_take]
    omega
  · intro r hr d hd
    have hpw := List.sorted_mergeSort rankGE_trans rankGE_total sessions
    have hsplit := List.take_append_drop cap (sessions.mergeSort PII.rankGE)
    rw [← hsplit, List.pairwise_append] at hpw
    exact hpw.2.2 r hr d hd
  · intro h40 h20
    unfold PII.selectSessions
    rw [List.length_take, hlen, h40, h20]
    omega

/-- C4 witness: forty concrete sessions with cap 20 — the bound, the
domination property and the exactly-20 count all hold. -/
theorem c4_witness :
    (PII.selectSessions 20 ((List.range 40).map
        (fun i => (⟨toString i, decide (i % 2 = 0), i, i⟩ : PII.SessionStat)))).length ≤ 20 ∧
    (∀ r ∈ PII.selectSessions 20 ((List.range 40).map
        (fun i => (⟨toString i, decide (i % 2 = 0), i, i⟩ : PII.SessionStat))),
      ∀ d ∈ PII.droppedSessions 20 ((List.range 40).map
        (fun i => (⟨toString i, decide (i % 2 = 0), i, i⟩ : PII.SessionStat))),
      PII.rankGE r d = true) ∧
    (((List.range 40).map
        (fun i => (⟨toString i, decide (i % 2 = 0), i, i⟩ : PII.SessionStat))).length = 40 →
      20 = 20 →
      (PII.selectSessions 20 ((List.range 40).map
        (fun i => (⟨toString i, decide (i % 2 = 0), i, i⟩ : PII.SessionStat)))).length = 20) :=
  c4_fanout_cap_and_domination 20 ((List.range 40).map
    (fun i => (⟨toString i, decide (i % 2 = 0), i, i⟩ : PII.SessionStat))) (by simp)

/-- Helper: List.any is invariant under permutation. -/
theorem any_congr_perm {α : Type} {l₁ l₂ : List α} (h : l₁.Perm l₂) (p : α → Bool) :
    l₁.any p = l₂.any p := by
  cases h2 : l₂.any p with
  | true =>
    rw [List.any_eq_true] at h2 ⊢
    obtain ⟨x, hx, hp⟩ := h2
    exact ⟨x, h.mem_iff.mpr hx, hp⟩
  | false =>
    rw [← Bool.not_eq_true] at h2 ⊢
    rw [List.any_eq_true] at h2 ⊢
    rintro ⟨x, hx, hp⟩
    exact h2 ⟨x, h.mem_iff.mp hx, hp⟩

/-- C2: the computed confidence is HIGH iff the root frame (index 0) has a
direct match, MEDIUM iff no root-frame direct match exists but some owned
frame has a direct or nearby match, LOW iff neither holds; and the value is
invariant under every permutation of the flow (hence of the other frames'
correlation states). -/
theorem c2_confidence_policy (flow : List PII.CallFlowStep) :
    (PII.rootCauseConfidence flow = .high ↔
      ∃ s ∈ flow, s.index = 0 ∧ PII.stepDirect s = true) ∧
    (PII.rootCauseConfidence flow = .medium ↔
      ((¬ ∃ s ∈ flow, s.index = 0 ∧ PII.stepDirect s = true) ∧
        ∃ s ∈ flow, s.isOwned = true ∧ PII.stepDirectOrNearby s = true)) ∧
    (PII.rootCauseConfidence flow = .low ↔
      ((¬ ∃ s ∈ flow, s.index = 0 ∧ PII.stepDirect s = true) ∧
        ¬ ∃ s ∈ flow, s.isOwned = true ∧ PII.stepDirectOrNearby s = true)) ∧
    (∀ flow2, flow.Perm flow2 →
      PII.rootCauseConfidence flow = PII.rootCauseConfidence flow2) := by
  have e1 : (flow.any (fun s => s.index == 0 && PII.stepDirect s) = true) ↔
      ∃ s ∈ flow, s.index = 0 ∧ PII.stepDirect s = true := by
    simp [List.any_eq_true]
  have e2 : (flow.any (fun s => s.isOwned && PII.stepDirectOrNearby s) = true) ↔
      ∃ s ∈ flow, s.isOwned = true ∧ PII.stepDirectOrNearby s = true := by
    simp [List.any_eq_true]
  refine ⟨?_, ?_, ?_, ?_⟩
  · unfold PII.rootCauseConfidence
    rw [if_congr e1 rfl rfl, if_congr e2 rfl rfl]
    by_cases h1 : ∃ s ∈ flow, s.index = 0 ∧ PII.stepDirect s = true <;>
      by_cases h2 : ∃ s ∈ flow, s.isOwned = true ∧ PII.stepDirectOrNearby s = true <;>
        simp [h1, h2]
  · unfold PII.rootCauseConfidence
    rw [if_congr e1 rfl rfl, if_congr e2 rfl rfl]
    by_cases h1 : ∃ s ∈ flow, s.index = 0 ∧ PII.stepDirect s = true <;>
      by_cases h2 : ∃ s ∈ flow, s.isOwned = true ∧ PII.stepDirectOrNearby s = true <;>
        simp [h1, h2]
  · unfold PII.rootCauseConfidence
    rw [if_congr e1 rfl rfl, if_congr e2 rfl rfl]
    by_cases h1 : ∃ s ∈ flow, s.index = 0 ∧ PII.stepDirect s = true <;>
      by_cases h2 : ∃ s ∈ flow, s.isOwned = true ∧ PII.stepDirectOrNearby s = true <;>
        simp [h1, h2]
  · intro flow2 hp
    unfold PII.rootCauseConfidence
    rw [any_congr_perm hp (fun s => s.index == 0 && PII.stepDirect s),
      any_congr_perm hp (fun s => s.isOwned && PII.stepDirectOrNearby s)]

/-- C2 witness: a concrete flow whose root frame has a direct match is
rated HIGH, and the rating survives a concrete permutation. -/
theorem c2_witness :
    (PII.rootCauseConfidence
        [⟨0, true, some ⟨true, false⟩⟩, ⟨1, true, none⟩] = .high ↔
      ∃ s ∈ [(⟨0, true, some ⟨true, false⟩⟩ : PII.CallFlowStep), ⟨1, true, none⟩],
        s.index = 0 ∧ PII.stepDirect s = true) ∧
    (∀ flow2, List.Perm [(⟨0, true, some ⟨true, false⟩⟩ : PII.CallFlowStep), ⟨1, true, none⟩] flow2 →
      PII.rootCauseConfidence [(⟨0, true, some ⟨true, false⟩⟩ : PII.CallFlowStep), ⟨1, true, none⟩] =
        PII.rootCauseConfidence flow2) := by
  have h := c2_confidence_policy [(⟨0, true, some ⟨true, false⟩⟩ : PII.CallFlowStep), ⟨1, true, none⟩]
  exact ⟨h.1, h.2.2.2⟩

/-- C9: on a path carrying either source extension, if the file is not
found at the given path the analyzer tries the sibling-extension path
exactly once (its attempts are precisely the two paths, so FileNotFound is
declared only after both extensions were tried), it never makes more than
two attempts, and it ends with no content exactly when both lookups miss. -/
theorem c9_extension_fallback (getFile : String → Option String) (p : String)
    (h : PII.listEndsWith p.data ".kt".data = true ∨ PII.listEndsWith p.data ".java".data = true) :
    ∃ q, PII.siblingPath p = some q ∧
      (getFile p = none → (PII.fetchWithExtensionFallback getFile p).attempts = [p, q]) ∧
      ((PII.fetchWithExtensionFallback getFile p).content = none ↔
        getFile p = none ∧ getFile q = none) ∧
      (PII.fetchWithExtensionFallback getFile p).attempts.length ≤ 2 := by
  have hq : ∃ q, PII.siblingPath p = some q := by
    unfold PII.siblingPath
    by_cases hkt : PII.listEndsWith p.data ".kt".data = true
    · rw [if_pos hkt]; exact ⟨_, rfl⟩
    · rcases h with h | h
      · exact absurd h hkt
      · rw [if_neg hkt, if_pos h]; exact ⟨_, rfl⟩
  obtain ⟨q, hq⟩ := hq
  refine ⟨q, hq, ?_, ?_, ?_⟩ <;>
    unfold PII.fetchWithExtensionFallback <;>
    cases hp : getFile p <;>
      simp [hq] <;>
      cases hsib : getFile q <;>
        simp

/-- C9 witness: a Kotlin path absent at both extensions is declared not
found only after the analyzer tried exactly the .kt path and then its
.java sibling. -/
theorem c9_witness :
    ∃ q, PII.siblingPath "src/main/kotlin/com/sunbit/card/Handler.kt" = some q ∧
      ((fun (_ : String) => (none : Option String)) "src/main/kotlin/com/sunbit/card/Handler.kt" = none →
        (PII.fetchWithExtensionFallback (fun _ => none) "src/main/kotlin/com/sunbit/card/Handler.kt").attempts =
          ["src/main/kotlin/com/sunbit/card/Handler.kt", q]) ∧
      ((PII.fetchWithExtensionFallback (fun _ => none) "src/main/kotlin/com/sunbit/card/Handler.kt").content = none ↔
        (fun (_ : String) => (none : Option String)) "src/main/kotlin/com/sunbit/card/Handler.kt" = none ∧
          (fun (_ : String) => (none : Option String)) q = none) ∧
      (PII.fetchWithExtensionFallback (fun _ => none) "src/main/kotlin/com/sunbit/card/Handler.kt").attempts.length ≤ 2 :=
  c9_extension_fallback (fun _ => none) "src/main/kotlin/com/sunbit/card/Handler.kt"
    (Or.inl (by decide))

/-- C7: in every schedule the scheduler can produce, no service's code
stage starts before that service's deployment stage has ended; across
services both relative orders are themselves valid schedules (so no
cross-service ordering holds); and aggregation is keyed by service name —
permuting the completion order leaves each service's aggregate unchanged
up to permutation. -/
theorem c7_pipeline_ordering :
    (∀ (services : List String) (tr : List (String × PII.StageEvent)) (s : String),
      PII.validSchedule services tr → s ∈ services →
      ¬ ([(s, PII.StageEvent.codeStart), (s, PII.StageEvent.deployEnd)].Sublist tr)) ∧
    (PII.validSchedule ["a", "b"] (PII.pipelineBlock "a" ++ PII.pipelineBlock "b") ∧
      PII.validSchedule ["a", "b"] (PII.pipelineBlock "b" ++ PII.pipelineBlock "a")) ∧
    (∀ (r1 r2 : List (String × Nat)), r1.Perm r2 → ∀ s,
      (PII.aggregateFor r1 s).Perm (PII.aggregateFor r2 s)) := by
  refine ⟨?_, ⟨?_, ?_⟩, ?_⟩
  · intro services tr s hv hs hsub
    have hmap := hsub.filterMap (fun p => if p.1 = s then some p.2 else none)
    have e1 : List.filterMap (fun p => if p.1 = s then some p.2 else none)
        [(s, PII.StageEvent.codeStart), (s, PII.StageEvent.deployEnd)] =
        [PII.StageEvent.codeStart, PII.StageEvent.deployEnd] := by
      simp
    have e2 := hv s hs
    unfold PII.serviceTrace at e2
    rw [e1, e2] at hmap
    exact (by decide :
      ¬ ([PII.StageEvent.codeStart, PII.StageEvent.deployEnd]).Sublist PII.pipelineOrder) hmap
  · unfold PII.validSchedule
    decide
  · unfold PII.validSchedule
    decide
  · intro r1 r2 hp s
    exact (hp.filter (fun p => p.1 == s)).map Prod.snd

/-- C7 witness: in the concrete two-service schedule that runs service a
wholly before service b, service a's code stage does not precede its
deployment end, and a concrete permutation of the completion order leaves
service a's aggregate unchanged up to permutation. -/
theorem c7_witness :
    ¬ ([("a", PII.StageEvent.codeStart), ("a", PII.StageEvent.deployEnd)].Sublist
        (PII.pipelineBlock "a" ++ PII.pipelineBlock "b")) ∧
    (PII.aggregateFor [("a", 1), ("b", 2)] "a").Perm
      (PII.aggregateFor [("b", 2), ("a", 1)] "a") := by
  refine ⟨c7_pipeline_ordering.1 ["a", "b"] _ "a" c7_pipeline_ordering.2.1.1 ?_,
    c7_pipeline_ordering.2.2 [("a", 1), ("b", 2)] [("b", 2), ("a", 1)] ?_ "a"⟩
  · decide
  · decide

/-- Helper: takeWhile over a list all of whose elements satisfy p. -/
theorem takeWhile_all_eq {α : Type} (p : α → Bool) (l : List α) (h : l.all p = true) :
    l.takeWhile p = l := by
  induction l with
  | nil => rfl
  | cons a as ih =>
    simp only [List.all_cons, Bool.and_eq_true] at h
    simp [List.takeWhile_cons, h.1, ih h.2]

/-- Helper: dropWhile over a list all of whose elements satisfy p. -/
theorem dropWhile_all_eq {α : Type} (p : α → Bool) (l : List α) (h : l.all p = true) :
    l.dropWhile p = [] := by
  induction l with
  | nil => rfl
  | cons a as ih =>
    simp only [List.all_cons, Bool.and_eq_true] at h
    simp [List.dropWhile_cons, h.1, ih h.2]

/-- Helper: takeWhile stops exactly at the first failing element. -/
theorem takeWhile_append_cons {α : Type} (p : α → Bool) (l : List α) (x : α) (r : List α)
    (hl : l.all p = true) (hx : p x = false) : (l ++ x :: r).takeWhile p = l := by
  induction l with
  | nil => simp [List.takeWhile_cons, hx]
  | cons a as ih =>
    simp only [List.all_cons, Bool.and_eq_true] at hl
    simp [List.takeWhile_cons, hl.1, ih hl.2]

/-- Helper: dropWhile drops exactly the satisfying head run. -/
theorem dropWhile_append_cons {α : Type} (p : α → Bool) (l : List α) (x : α) (r : List α)
    (hl : l.all p = true) (hx : p x = false) : (l ++ x :: r).dropWhile p = x :: r := by
  induction l with
  | nil => simp [List.dropWhile_cons, hx]
  | cons a as ih =>
    simp only [List.all_cons, Bool.and_eq_true] at hl
    simp [List.dropWhile_cons, hl.1, ih hl.2]

/-- Helper: line splitting around the first newline. -/
theorem linesOf_append (a b : List Char) (h : '\n' ∉ a) :
    PII.linesOf (a ++ '\n' :: b) = a :: PII.linesOf b := by
  induction a with
  | nil => simp [PII.linesOf]
  | cons c cs ih =>
    have hc : ¬ c = '\n' := fun e => h (e ▸ List.mem_cons_self c cs)
    have hm : '\n' ∉ cs := fun hm => h (List.mem_cons_of_mem c hm)
    simp [PII.linesOf, hc, ih hm]

/-- Helper: the header regex accepts a type token followed by a colon,
a space and a message whose first character is not whitespace. -/
theorem headerMatch_with_message (ty msg : String) (c : Char) (cs : List Char)
    (hty : ty.data ≠ []) (htyc : ty.data.all PII.isTypeChar = true)
    (hsuf : PII.endsWithRequiredSuffix ty = true)
    (hmsg : msg.data = c :: cs) (hc : c.isWhitespace = false) :
    PII.headerMatch (ty.data ++ ':' :: ' ' :: msg.data) = some (ty, some msg) := by
  have hmk : String.mk ty.data = ty := rfl
  have hmkm : String.mk msg.data = msg := rfl
  have hne : ty.data.isEmpty = false := by
    cases h : ty.data with
    | nil => exact absurd h hty
    | cons a as => rfl
  simp only [PII.headerMatch]
  rw [takeWhile_append_cons _ _ _ _ htyc (by decide),
    dropWhile_append_cons _ _ _ _ htyc (by decide), hmk, hne, hsuf]
  simp only [Bool.not_true, Bool.or_false, Bool.false_eq_true, if_false]
  rw [hmsg]
  simp only [List.isEmpty_cons, Bool.false_eq_true, if_false, List.dropWhile_cons]
  rw [show (' '.isWhitespace) = true from rfl, hc]
  simp only [if_true, Bool.false_eq_true, if_false, List.isEmpty_cons]
  rw [← hmsg, hmkm]

/-- Helper: the header regex accepts a bare type token line. -/
theorem headerMatch_bare (ty : String)
    (hty : ty.data ≠ []) (htyc : ty.data.all PII.isTypeChar = true)
    (hsuf : PII.endsWithRequiredSuffix ty = true) :
    PII.headerMatch ty.data = some (ty, none) := by
  have hmk : String.mk ty.data = ty := rfl
  have hne : ty.data.isEmpty = false := by
    cases h : ty.data with
    | nil => exact absurd h hty
    | cons a as => rfl
  simp only [PII.headerMatch]
  rw [takeWhile_all_eq _ _ htyc, dropWhile_all_eq _ _ htyc, hmk, hne, hsuf]
  simp

/-- Helper: a list of type characters contains no newline. -/
theorem no_newline_of_typeChars (l : List Char) (h : l.all PII.isTypeChar = true) :
    '\n' ∉ l := by
  intro hm
  have := List.all_eq_true.mp h '\n' hm
  exact absurd this (by decide)

/-- C8 counterexample: the claim admits an arbitrary type name in the
header, but the header regex requires the type to end in Exception, Error
or Throwable: the line CustomFailure: boom has the claimed type-message
shape yet the parser leaves the exception type null. -/
theorem c8_counterexample :
    ¬ ((PII.parse "CustomFailure: boom").exceptionType = some "CustomFailure") ∧
    (PII.parse "CustomFailure: boom").exceptionType = none := by
  refine ⟨by decide, by decide⟩

/-- C8 amended: the parser accepts as header a first line whose type token
is a nonempty [\w.$]+ string that decomposes as a nonempty stem plus
Exception, Error or Throwable — either bare or followed by a colon and a
message — and when no line matches the header pattern it still returns a
ParsedStackTrace, with the exception type null. -/
theorem c8_header_acceptance (ty msg rest : String) (c : Char) (cs : List Char)
    (hty : ty.data ≠ []) (htyc : ty.data.all PII.isTypeChar = true)
    (hsuf : PII.endsWithRequiredSuffix ty = true)
    (hmsg : msg.data = c :: cs) (hc : c.isWhitespace = false)
    (hnl : '\n' ∉ msg.data) :
    ((PII.parse (ty ++ ": " ++ msg ++ "\n" ++ rest)).exceptionType = some ty ∧
      (PII.parse (ty ++ ": " ++ msg ++ "\n" ++ rest)).exceptionMessage = some msg) ∧
    ((PII.parse (ty ++ "\n" ++ rest)).exceptionType = some ty ∧
      (PII.parse (ty ++ "\n" ++ rest)).exceptionMessage = none) ∧
    (∀ raw : String, (∀ l ∈ PII.linesOf raw.data, PII.headerMatch l = none) →
      (PII.parse raw).exceptionType = none) := by
  have hnotty : '\n' ∉ ty.data := no_newline_of_typeChars _ htyc
  refine ⟨?_, ?_, ?_⟩
  · have hdata : (ty ++ ": " ++ msg ++ "\n" ++ rest).data =
        (ty.data ++ ':' :: ' ' :: msg.data) ++ '\n' :: rest.data := by
      have h1 : (": " : String).data = [':', ' '] := rfl
      have h2 : ("\n" : String).data = ['\n'] := rfl
      simp [String.data_append, h1, h2]
    have hna : '\n' ∉ ty.data ++ ':' :: ' ' :: msg.data := by
      intro hm
      rcases List.mem_append.mp hm with hm | hm
      · exact hnotty hm
      · simp only [List.mem_cons] at hm
        rcases hm with he | he | hm
        · exact absurd he (by decide)
        · exact absurd he (by decide)
        · exact hnl hm
    simp only [PII.parse]
    rw [hdata, linesOf_append _ _ hna, List.findSome?_cons,
      headerMatch_with_message ty msg c cs hty htyc hsuf hmsg hc]
    exact ⟨rfl, rfl⟩
  · have hdata : (ty ++ "\n" ++ rest).data = ty.data ++ '\n' :: rest.data := by
      have h2 : ("\n" : String).data = ['\n'] := rfl
      simp [String.data_append, h2]
    simp only [PII.parse]
    rw [hdata, linesOf_append _ _ hnotty, List.findSome?_cons,
      headerMatch_bare ty hty htyc hsuf]
    exact ⟨rfl, rfl⟩
  · intro raw hall
    simp only [PII.parse]
    rw [List.findSome?_eq_none_iff.mpr hall]
    rfl

/-- C8 witness: a concrete NullPointerException header with a message, the
same type bare, and a concrete headerless text, all behave as stated. -/
theorem c8_witness :
    ((PII.parse ("java.lang.NullPointerException" ++ ": " ++ "boom" ++ "\n" ++
        "  at com.sunbit.card.Handler.handle(Handler.kt:45)")).exceptionType =
      some "java.lang.NullPointerException" ∧
      (PII.parse ("java.lang.NullPointerException" ++ ": " ++ "boom" ++ "\n" ++
        "  at com.sunbit.card.Handler.handle(Handler.kt:45)")).exceptionMessage = some "boom") ∧
    ((PII.parse ("java.lang.NullPointerException" ++ "\n" ++
        "  at com.sunbit.card.Handler.handle(Handler.kt:45)")).exceptionType =
      some "java.lang.NullPointerException" ∧
      (PII.parse ("java.lang.NullPointerException" ++ "\n" ++
        "  at com.sunbit.card.Handler.handle(Handler.kt:45)")).exceptionMessage = none) ∧
    (∀ raw : String, (∀ l ∈ PII.linesOf raw.data, PII.headerMatch l = none) →
      (PII.parse raw).exceptionType = none) :=
  c8_header_acceptance "java.lang.NullPointerException" "boom"
    "  at com.sunbit.card.Handler.handle(Handler.kt:45)" 'b' ['o', 'o', 'm']
    (by decide) (by decide) (by decide) rfl (by decide) (by decide)
